import Mathlib

/-!
Shallow embedding of the query-planning / retrieval-fusion / orchestration core
of the a2a-mcp repository (directory `src/api`), together with proofs about it.

Modelling conventions:
* Python `float` is modelled as `ℚ` (exact rational arithmetic).
* Python `str` is modelled as `String`; `str.strip` as `pyStrip`,
  `str.lower` as `pyLower`, slicing `s[:n]` as `pyTake` (all list-based below).
* Python dicts that are used as insertion-ordered maps are modelled as
  association lists (`List (String × β)`); updating an existing key keeps its
  position, a new key is appended at the end, exactly as CPython dicts behave.
* Python `list.sort(key=..., reverse=True)` (Timsort, stable) is modelled by
  the stable `List.insertionSort` with the relation `b.score ≤ a.score`;
  a stable descending sort is uniquely determined, so any stable sort models it.
* External collaborators (the LLM, the cross-encoder scoring model) are
  passed in as explicit oracle arguments (`Option …`), `none` standing for
  "the external call failed / the model is unavailable".
-/

/-- Substring membership on character lists, modelling Python `sub in s`. -/
def listContainsSub (cs ws : List Char) : Bool :=
  (List.range (cs.length + 1)).any fun i => decide (((cs.drop i).take ws.length) = ws)

/-- Python's `sub in s` on strings. -/
def strContainsSub (s sub : String) : Bool :=
  listContainsSub s.toList sub.toList

/-- Python `s.strip()` (whitespace strip), list-based so it kernel-reduces. -/
def pyStrip (s : String) : String :=
  String.mk (((s.toList.dropWhile Char.isWhitespace).reverse.dropWhile
    Char.isWhitespace).reverse)

/-- The ASCII upper-to-lower table. -/
def asciiLowerPairs : List (Char × Char) :=
  [('A', 'a'), ('B', 'b'), ('C', 'c'), ('D', 'd'), ('E', 'e'), ('F', 'f'),
   ('G', 'g'), ('H', 'h'), ('I', 'i'), ('J', 'j'), ('K', 'k'), ('L', 'l'),
   ('M', 'm'), ('N', 'n'), ('O', 'o'), ('P', 'p'), ('Q', 'q'), ('R', 'r'),
   ('S', 's'), ('T', 't'), ('U', 'u'), ('V', 'v'), ('W', 'w'), ('X', 'x'),
   ('Y', 'y'), ('Z', 'z')]

/-- Lowercase one character (ASCII model of Python `str.lower`), via the
explicit table so that elementary facts about it are provable by `decide`. -/
def pyCharLower (c : Char) : Char :=
  ((asciiLowerPairs.find? fun p => p.1 = c).map Prod.snd).getD c

/-- Python `s.lower()` (ASCII model), list-based so it kernel-reduces. -/
def pyLower (s : String) : String :=
  String.mk (s.toList.map pyCharLower)

/-- Python slicing `s[:n]` by characters, list-based so it kernel-reduces. -/
def pyTake (s : String) (n : Nat) : String :=
  String.mk (s.toList.take n)

/-- Python `s.split("\n")`, list-based so it kernel-reduces. -/
def pySplitNewline (s : String) : List String :=
  (s.toList.foldr
    (fun c acc =>
      if c = '\n' then [] :: acc
      else
        match acc with
        | h :: t => (c :: h) :: t
        | [] => [[c]])
    [[]]).map String.mk

/-- Python `s.endswith("?")`. -/
def pyEndsWithQmark (s : String) : Bool :=
  s.toList.getLast? = some '?'

/-- Python's `\w` word character (ASCII model): letters, digits, underscore. -/
def isWordChar (c : Char) : Bool :=
  c.isAlphanum || c = '_'

/-- Whether the word `w` occurs in `cs` at position `i` with `\b` boundaries
on both sides (used to model `re.search(r"\b(...)\b", s, re.I)`). -/
def wordAt (cs ws : List Char) (i : Nat) : Bool :=
  decide (((cs.drop i).take ws.length) = ws) &&
  (decide (i = 0) || !isWordChar (cs.getD (i - 1) ' ')) &&
  (decide (cs.length ≤ i + ws.length) || !isWordChar (cs.getD (i + ws.length) ' '))

/-- Case-insensitive whole-word search of `w` inside `s`. -/
def hasWholeWord (s w : String) : Bool :=
  let cs := (pyLower s).toList
  let ws := (pyLower w).toList
  (List.range (cs.length + 1)).any fun i => wordAt cs ws i

/-- Python `re.sub(r"\s+", " ", s)`: collapse every run of whitespace to one space. -/
def collapseWhitespace (s : String) : String :=
  let step : (List Char × Bool) → Char → (List Char × Bool) := fun acc c =>
    if c.isWhitespace then
      (if acc.2 then acc.1 else acc.1 ++ [' '], true)
    else
      (acc.1 ++ [c], false)
  String.mk (s.toList.foldl step ([], false)).1

/-- Python `s.strip(chars)`: drop characters of `chars` from both ends. -/
def stripChars (s : String) (chars : List Char) : String :=
  String.mk (((s.toList.dropWhile (chars.contains ·)).reverse.dropWhile
    (chars.contains ·)).reverse)

/-- The first string in the list that is non-empty, else `""`; models a Python
`a or b or c or ""` chain over strings (where truthiness is non-emptiness). -/
def firstNonEmptyStr : List String → String
  | [] => ""
  | s :: rest => if s ≠ "" then s else firstNonEmptyStr rest

/-! ## Arithmetic expression evaluation

`CalculatorTool.use_calculator` runs Python `eval` on a string that already
matched `_SAFE_PATTERN = ^[\s\d\+\-\*/\(\)\.]+$`.  We model that evaluation by
a tokenizer and a recursive-descent parser for the grammar actually reachable
through the safe character set: decimal literals, `+ - * /` with the usual
precedence, unary sign, and parentheses, over exact rationals.  Python's `**`
and `//` (also expressible in the safe charset) and its exact error messages
are not modelled; a `ZeroDivisionError` and every syntax error are both mapped
to `Except.error`.  None of the claims exercises those corners. -/

inductive ArithTok where
  | num (q : ℚ)
  | plus
  | minus
  | star
  | slash
  | lparen
  | rparen
deriving DecidableEq, Repr

/-- Decimal digit run to a natural number. -/
def digitsToNat (cs : List Char) : Nat :=
  cs.foldl (fun n c => 10 * n + (c.toNat - '0'.toNat)) 0

/-- Parse a decimal literal `digits [. digits]` or `. digits` at the head. -/
def readNumber (cs : List Char) : Option (ℚ × List Char) :=
  let intPart := cs.takeWhile Char.isDigit
  let rest := cs.dropWhile Char.isDigit
  match rest with
  | '.' :: rest' =>
    let fracPart := rest'.takeWhile Char.isDigit
    let rest'' := rest'.dropWhile Char.isDigit
    if intPart.isEmpty && fracPart.isEmpty then none
    else
      some (((digitsToNat (intPart ++ fracPart) : ℚ)) / ((10 : ℚ) ^ fracPart.length), rest'')
  | _ =>
    if intPart.isEmpty then none
    else some ((digitsToNat intPart : ℚ), rest)

/-- Tokenize a safe arithmetic string; `fuel` bounds the recursion. -/
def arithTokenize : Nat → List Char → Option (List ArithTok)
  | _, [] => some []
  | 0, _ => none
  | fuel + 1, c :: cs =>
    if c.isWhitespace then arithTokenize fuel cs
    else if c = '+' then (arithTokenize fuel cs).map (ArithTok.plus :: ·)
    else if c = '-' then (arithTokenize fuel cs).map (ArithTok.minus :: ·)
    else if c = '*' then (arithTokenize fuel cs).map (ArithTok.star :: ·)
    else if c = '/' then (arithTokenize fuel cs).map (ArithTok.slash :: ·)
    else if c = '(' then (arithTokenize fuel cs).map (ArithTok.lparen :: ·)
    else if c = ')' then (arithTokenize fuel cs).map (ArithTok.rparen :: ·)
    else if c.isDigit || c = '.' then
      match readNumber (c :: cs) with
      | none => none
      | some (q, rest) =>
        if rest.length < (c :: cs).length then
          (arithTokenize fuel rest).map (ArithTok.num q :: ·)
        else none
    else none

mutual
/-- expr := term (( + | - ) term)* -/
def parseExpr : Nat → List ArithTok → Except String (ℚ × List ArithTok)
  | 0, _ => .error "parse error"
  | fuel + 1, toks => do
    let (v, rest) ← parseTerm fuel toks
    parseExprTail fuel v rest

def parseExprTail : Nat → ℚ → List ArithTok → Except String (ℚ × List ArithTok)
  | 0, _, _ => .error "parse error"
  | fuel + 1, acc, ArithTok.plus :: rest => do
    let (v, rest') ← parseTerm fuel rest
    parseExprTail fuel (acc + v) rest'
  | fuel + 1, acc, ArithTok.minus :: rest => do
    let (v, rest') ← parseTerm fuel rest
    parseExprTail fuel (acc - v) rest'
  | _ + 1, acc, toks => .ok (acc, toks)

/-- term := factor (( * | / ) factor)* -/
def parseTerm : Nat → List ArithTok → Except String (ℚ × List ArithTok)
  | 0, _ => .error "parse error"
  | fuel + 1, toks => do
    let (v, rest) ← parseFactor fuel toks
    parseTermTail fuel v rest

def parseTermTail : Nat → ℚ → List ArithTok → Except String (ℚ × List ArithTok)
  | 0, _, _ => .error "parse error"
  | fuel + 1, acc, ArithTok.star :: rest => do
    let (v, rest') ← parseFactor fuel rest
    parseTermTail fuel (acc * v) rest'
  | fuel + 1, acc, ArithTok.slash :: rest => do
    let (v, rest') ← parseFactor fuel rest
    if v = 0 then .error "division by zero" else parseTermTail fuel (acc / v) rest'
  | _ + 1, acc, toks => .ok (acc, toks)

/-- factor := ( + | - ) factor | number | ( expr ) -/
def parseFactor : Nat → List ArithTok → Except String (ℚ × List ArithTok)
  | 0, _ => .error "parse error"
  | fuel + 1, ArithTok.plus :: rest => parseFactor fuel rest
  | fuel + 1, ArithTok.minus :: rest => do
    let (v, rest') ← parseFactor fuel rest
    .ok (-v, rest')
  | _ + 1, ArithTok.num q :: rest => .ok (q, rest)
  | fuel + 1, ArithTok.lparen :: rest => do
    let (v, rest') ← parseExpr fuel rest
    match rest' with
    | ArithTok.rparen :: rest'' => .ok (v, rest'')
    | _ => .error "parse error"
  | _ + 1, _ => .error "parse error"
end

/-- Model of Python `eval` on a `_SAFE_PATTERN`-matching arithmetic string. -/
def evalArith (s : String) : Except String ℚ :=
  match arithTokenize (s.length + 1) s.toList with
  | none => .error "invalid syntax"
  | some toks =>
    match parseExpr (toks.length + 1) toks with
    | .ok (v, []) => .ok v
    | .ok (_, _ :: _) => .error "invalid syntax"
    | .error e => .error e

/-! ## CalculatorTool (src/api/tools/calculator_tool.py)

Sandboxed arithmetic evaluator with simple intent detection.  It holds minimal
state: the last extracted expression (`_last_expr`). -/

/-- Result dictionary of `CalculatorTool.use_calculator`: the success path sets
no `error` key, which reads back as Python `None`, modelled as `none`. -/
structure CalcResult where
  tool : String
  result : Option ℚ
  error : Option String
deriving DecidableEq, Repr

/-- The character class of `_SAFE_PATTERN = ^[\s\d\+\-\*/\(\)\.]+$`. -/
def isSafeChar (c : Char) : Bool :=
  c.isWhitespace || c.isDigit || c = '+' || c = '-' || c = '*' || c = '/' ||
    c = '(' || c = ')' || c = '.'

/-- Python `_SAFE_PATTERN.match(s)`: one or more safe characters. -/
def safePattern (s : String) : Bool :=
  !s.isEmpty && s.toList.all isSafeChar

/-- `_OP_TOKENS = ("+", "-", "*", "/")`. -/
def opTokens : List Char := ['+', '-', '*', '/']

/-- `_NL_CALC_HINTS` from the source. -/
def nlCalcHints : List String :=
  ["tinh", "tính", "sum", "plus", "add", "calculate", "calc", "total", "result of"]

/-- Python `re.sub(r"^\s*[\-–]\s+", "", text)`: drop a leading bullet-like
hyphen (with the whitespace around it) once, if present. -/
def stripBullet (s : String) : String :=
  let cs := s.toList
  match cs.dropWhile Char.isWhitespace with
  | c :: r2 =>
    if c = '-' || c = '–' then
      if (r2.takeWhile Char.isWhitespace).isEmpty then s
      else String.mk (r2.dropWhile Char.isWhitespace)
    else s
  | [] => s

/-- Match `\d+(?:\.\d+)?` at the head; returns the matched characters and the
rest.  The regex is greedy and, as argued in the development notes, greedy
maximal-munch is equivalent to Python's backtracking for this pattern. -/
def matchNumber (cs : List Char) : Option (List Char × List Char) :=
  let ds := cs.takeWhile Char.isDigit
  if ds.isEmpty then none
  else
    let rest := cs.dropWhile Char.isDigit
    match rest with
    | '.' :: r2 =>
      let fs := r2.takeWhile Char.isDigit
      if fs.isEmpty then some (ds, rest)
      else some (ds ++ '.' :: fs, r2.dropWhile Char.isDigit)
    | _ => some (ds, rest)

/-- Match `\s+` at the head. -/
def matchWs1 (cs : List Char) : Option (List Char) :=
  if (cs.takeWhile Char.isWhitespace).isEmpty then none
  else some (cs.dropWhile Char.isWhitespace)

/-- Match a literal at the head. -/
def matchLit (lit cs : List Char) : Option (List Char) :=
  if cs.take lit.length = lit then some (cs.drop lit.length) else none

/-- Try `re.search(r"sum\s+of\s+(\d+(?:\.\d+)?)\s+(?:and|&)\s+(\d+(?:\.\d+)?)")`
anchored at the head of `cs`; returns the two captured number strings. -/
def sumOfPatAt (cs : List Char) : Option (List Char × List Char) := do
  let r ← matchLit "sum".toList cs
  let r ← matchWs1 r
  let r ← matchLit "of".toList r
  let r ← matchWs1 r
  let (a, r) ← matchNumber r
  let r ← matchWs1 r
  let r ← (matchLit "and".toList r).orElse (fun _ => matchLit "&".toList r)
  let r ← matchWs1 r
  let (b, _) ← matchNumber r
  some (a, b)

/-- Try `(\d+(?:\.\d+)?)\s+(?:plus|add(?:ed)?\s+to)\s+(\d+(?:\.\d+)?)` anchored
at the head of `cs`.  The two alternatives start with different letters, so
committing to a successful `plus` never loses a match the other branch had. -/
def plusPatAt (cs : List Char) : Option (List Char × List Char) := do
  let (a, r) ← matchNumber cs
  let r ← matchWs1 r
  let r ← (matchLit "plus".toList r).orElse (fun _ => do
    let r2 ← matchLit "add".toList r
    match matchLit "ed".toList r2 with
    | some r3 =>
      (do
        let r4 ← matchWs1 r3
        matchLit "to".toList r4).orElse (fun _ => do
          let r4 ← matchWs1 r2
          matchLit "to".toList r4)
    | none => do
      let r4 ← matchWs1 r2
      matchLit "to".toList r4)
  let r ← matchWs1 r
  let (b, _) ← matchNumber r
  some (a, b)

/-- Leftmost search of an anchored matcher, modelling `re.search`. -/
def reSearch {α : Type} (pat : List Char → Option α) (cs : List Char) : Option α :=
  (List.range (cs.length + 1)).findSome? fun i => pat (cs.drop i)

/-- `CalculatorTool._extract_math_expression`.  The `re.I` searches run on a
lowercased copy; the captured groups consist of digits and dots, which
lowercasing does not change. -/
def CalculatorTool.extract_math_expression (text : String) : Option String :=
  let text := stripBullet text
  let low := pyLower text
  match reSearch sumOfPatAt low.toList with
  | some (a, b) => some (String.mk a ++ " + " ++ String.mk b)
  | none =>
  match reSearch plusPatAt low.toList with
  | some (a, b) => some (String.mk a ++ " + " ++ String.mk b)
  | none =>
    let candidate := String.mk (text.toList.filter isSafeChar)
    let candidate := collapseWhitespace (stripChars (pyStrip candidate) ['=', '?'])
    if candidate.toList.any (opTokens.contains ·) && candidate.toList.any Char.isDigit
        && safePattern candidate then
      some candidate
    else none

/-- The mutable state of one `CalculatorTool` instance: `self._last_expr`. -/
structure CalculatorTool where
  last_expr : Option String
deriving DecidableEq, Repr

/-- `CalculatorTool.looks_like_calculation`: returns the boolean answer and the
instance state after the call (it caches the extracted expression). -/
def CalculatorTool.looks_like_calculation (st : CalculatorTool) (question : String) :
    Bool × CalculatorTool :=
  let text := pyLower (pyStrip question)
  let has_hint := nlCalcHints.any (fun h => strContainsSub text h)
  let has_digits_ops := text.toList.any (opTokens.contains ·) && text.toList.any Char.isDigit
  if !(has_hint || has_digits_ops) then (false, st)
  else
    match CalculatorTool.extract_math_expression text with
    | some expr => (true, { st with last_expr := some expr })
    | none => (false, st)

/-- `CalculatorTool.use_calculator`.  It prefers the cached `_last_expr`; only
when that is absent or blank does it parse its `expression` argument. -/
def CalculatorTool.use_calculator (st : CalculatorTool) (expression : String) : CalcResult :=
  let expr := pyStrip (st.last_expr.getD "")
  let expr := if expr = "" then (CalculatorTool.extract_math_expression (pyStrip expression)).getD ""
    else expr
  if !safePattern expr then
    { tool := "calculator", result := none, error := some "unsupported expression" }
  else
    match evalArith expr with
    | .ok v => { tool := "calculator", result := some v, error := none }
    | .error e => { tool := "calculator", result := none, error := some e }

/-- Dynamic attribute lookup on a `CalculatorTool` instance for methods of the
shape `String -> Dict` (the shape `AgentManager.use_calculator` calls).  The
class defines `looks_like_calculation`, `use_calculator` and
`_extract_math_expression`; of these only `use_calculator` has that shape.
There is no method named `calculate`. -/
def CalculatorTool.lookupDictMethod (name : String) :
    Option (CalculatorTool → String → CalcResult) :=
  if name = "use_calculator" then some CalculatorTool.use_calculator else none

/-- `AgentManager.use_calculator` (src/api/agent_manager.py line 163) executes
`return self._calculator.calculate(expression)`.  Python resolves the
attribute `calculate` dynamically and raises `AttributeError` when the class
does not define it. -/
def AgentManager.use_calculator (st : CalculatorTool) (expression : String) :
    Except String CalcResult :=
  match CalculatorTool.lookupDictMethod "calculate" with
  | some f => .ok (f st expression)
  | none => .error "AttributeError"

/-! ## Reciprocal Rank Fusion (src/api/fusion_utils.py)

`DocumentScore` and `ReciprocalRankFusion.fuse_results` / `fuse_with_weights`.
The accumulator dict `document_scores` is an insertion-ordered map from dedup
key to a bucket record. -/

/-- The `DocumentScore` dataclass.  `metadata` is an opaque string map in this
embedding; `rank` is always a non-negative position here, so `Nat`. -/
structure DocumentScore where
  content : String
  metadata : List (String × String)
  score : ℚ
  source_query : String
  rank : Nat
deriving DecidableEq, Repr

/-- One bucket of the `document_scores` dict inside `fuse_results`. -/
structure FusionBucket where
  content : String
  metadata : List (String × String)
  rrf_score : ℚ
  appearances : Nat
  source_queries : List String
deriving DecidableEq, Repr

/-- The dedup key: the first 100 characters of a non-empty content, else the
synthetic key `doc_<queryIdx>_<rank>`. -/
def fusionDocKey (queryIdx rank : Nat) (content : String) : String :=
  if content ≠ "" then pyTake content 100
  else "doc_" ++ toString queryIdx ++ "_" ++ toString rank

/-- Whether the insertion-ordered map has the key. -/
def assocHasKey (m : List (String × FusionBucket)) (key : String) : Bool :=
  m.any (fun p => p.1 = key)

/-- In-place update of the value at `key` (keeps the key's dict position). -/
def assocUpdate (m : List (String × FusionBucket)) (key : String)
    (f : FusionBucket → FusionBucket) : List (String × FusionBucket) :=
  m.map (fun p => if p.1 = key then (p.1, f p.2) else p)

/-- Processing of a single passage inside the double loop of `fuse_results`
(and of `fuse_with_weights`, which contributes `weight / (k + rank)`). -/
def rrfStep (k weight : ℚ) (queryIdx rank : Nat) (d : DocumentScore)
    (m : List (String × FusionBucket)) : List (String × FusionBucket) :=
  let key := fusionDocKey queryIdx rank d.content
  let m := if assocHasKey m key then m
    else m ++ [(key, ⟨d.content, d.metadata, 0, 0, []⟩)]
  assocUpdate m key fun b =>
    ⟨b.content, b.metadata, b.rrf_score + weight / (k + (rank : ℚ)),
      b.appearances + 1, b.source_queries ++ [d.source_query]⟩

/-- The inner `for rank, doc_score in enumerate(results)` loop. -/
def rrfList (k weight : ℚ) (queryIdx : Nat) (docs : List DocumentScore)
    (m : List (String × FusionBucket)) : List (String × FusionBucket) :=
  docs.enum.foldl (fun m p => rrfStep k weight queryIdx p.1 p.2 m) m

/-- The outer `for query_idx, results in enumerate(query_results)` loop of
`fuse_results` (every list has weight 1). -/
def rrfAll (k : ℚ) (lists : List (List DocumentScore)) : List (String × FusionBucket) :=
  lists.enum.foldl (fun m p => rrfList k 1 p.1 p.2 m) []

/-- Conversion of a bucket to the output `DocumentScore` in `fuse_results`. -/
def bucketToDoc (b : FusionBucket) : DocumentScore :=
  { content := if b.content = "" then "Document from " ++ toString b.appearances ++ " queries"
      else b.content
    metadata := b.metadata
    score := b.rrf_score
    source_query := "Combined from " ++ toString b.appearances ++ " queries"
    rank := 0 }

/-- The descending-score relation used by `sort(key=lambda x: x.score, reverse=True)`. -/
def scoreDesc (a b : DocumentScore) : Prop := b.score ≤ a.score

instance : DecidableRel scoreDesc := fun a b => inferInstanceAs (Decidable (b.score ≤ a.score))

instance : IsTotal DocumentScore scoreDesc := ⟨fun a b => le_total b.score a.score⟩

instance : IsTrans DocumentScore scoreDesc := ⟨fun _ _ _ h1 h2 => le_trans h2 h1⟩

/-- Python's stable descending sort by score. -/
def sortByScoreDesc (l : List DocumentScore) : List DocumentScore :=
  List.insertionSort scoreDesc l

/-- The final `for i, doc in enumerate(fused_results): doc.rank = i` loop. -/
def assignRanks (l : List DocumentScore) : List DocumentScore :=
  l.enum.map fun p => { p.2 with rank := p.1 }

/-- The bucket list of `fuse_results` turned into output documents (the
`fused_results` list right before sorting). -/
def bucketDocs (k : ℚ) (query_results : List (List DocumentScore)) : List DocumentScore :=
  (rrfAll k query_results).map fun p => bucketToDoc p.2

/-- `ReciprocalRankFusion.fuse_results` (fusion_utils.py lines 25-89). -/
def fuse_results (k : ℚ) (query_results : List (List DocumentScore)) : List DocumentScore :=
  assignRanks (sortByScoreDesc (bucketDocs k query_results))

/-- Default weight vector of `fuse_with_weights`: `[2.0] + [1.0]*(len-1)`.
For zero lists Python evaluates `[1.0] * (-1)` to `[]`, so the default is
`[2.0]` even then; `List.replicate (n-1)` with truncated subtraction agrees. -/
def defaultFusionWeights (numLists : Nat) : List ℚ :=
  2 :: List.replicate (numLists - 1) 1

/-- Bucket-to-document conversion in `fuse_with_weights` (different label). -/
def bucketToDocWeighted (b : FusionBucket) : DocumentScore :=
  { content := if b.content = "" then "Document from " ++ toString b.appearances ++ " queries"
      else b.content
    metadata := b.metadata
    score := b.rrf_score
    source_query := "Weighted RRF from " ++ toString b.appearances ++ " queries"
    rank := 0 }

/-- `ReciprocalRankFusion.fuse_with_weights` (fusion_utils.py lines 91-161).
`weights = none` models the Python default `weights=None`; a mismatched
length raises `ValueError`, modelled as `Except.error` with the source's
(Vietnamese) message. -/
def fuse_with_weights (k : ℚ) (query_results : List (List DocumentScore))
    (weights : Option (List ℚ)) : Except String (List DocumentScore) :=
  let ws := weights.getD (defaultFusionWeights query_results.length)
  if ws.length ≠ query_results.length then
    .error "Số lượng weights phải bằng số lượng queries"
  else
    let m := (query_results.zip ws).enum.foldl
      (fun m p => rrfList k p.2.2 p.1 p.2.1 m) []
    .ok (assignRanks (sortByScoreDesc (m.map (fun p => bucketToDocWeighted p.2))))

/-! ### Specification-side fusion (from spec.md §4.4 and the C3 claim text)

The following definitions are written from the specification's words, to be
compared with `fuse_results` above: "for every source list `i` and every
passage at position `rank` (0-based) within it, compute a contribution
`1.0 / (k + rank)`; accumulate contributions into the bucket identified by the
passage's dedup key (first 100 characters of content, or a synthetic
`doc_<listIndex>_<rank>` key if content is empty); track contribution count
('appearances') and originating queries.  After processing all lists, sort
buckets by accumulated score descending (stable with respect to insertion
order on ties) and assign the output `rank` field as the 0-based sorted
position."  The cosmetic content/source-query labels of the output documents
are not described by the spec; `bucketToDoc` is reused for them. -/

/-- One occurrence of a passage: source list index, 0-based rank within the
list, and the passage itself. -/
structure FusionOcc where
  qIdx : Nat
  rnk : Nat
  doc : DocumentScore
deriving DecidableEq, Repr

/-- All occurrences of a fusion input, in scan order (lists in order, each
list front to back). -/
def fusionOccs (lists : List (List DocumentScore)) : List FusionOcc :=
  (lists.enum.map (fun p => p.2.enum.map (fun q => FusionOcc.mk p.1 q.1 q.2))).flatten

/-- The dedup key of one occurrence (spec wording: first 100 characters of
content, or `doc_<listIndex>_<rank>` when content is empty). -/
def occKey (o : FusionOcc) : String :=
  if o.doc.content = "" then "doc_" ++ toString o.qIdx ++ "_" ++ toString o.rnk
  else pyTake o.doc.content 100

/-- The dedup keys in order of first appearance (dict insertion order). -/
def keysInOrder (occs : List FusionOcc) : List String :=
  occs.foldl (fun acc o => if occKey o ∈ acc then acc else acc ++ [occKey o]) []

/-- The bucket a key accumulates over a list of occurrences: the sum of the
contributions `1 / (k + rank)` of its occurrences, their count, and their
source queries; content and metadata come from its first occurrence. -/
def specBucket (k : ℚ) (occs : List FusionOcc) (key : String) : FusionBucket :=
  let mine := occs.filter (fun o => occKey o = key)
  { content := ((mine.head?.map (fun o => o.doc.content)).getD "")
    metadata := ((mine.head?.map (fun o => o.doc.metadata)).getD [])
    rrf_score := (mine.map (fun o => 1 / (k + (o.rnk : ℚ)))).sum
    appearances := mine.length
    source_queries := mine.map (fun o => o.doc.source_query) }

/-- Specification-side reciprocal rank fusion: buckets in first-appearance
order with per-key accumulated contributions, stably sorted by score
descending, ranks assigned as sorted positions. -/
def fuseSpec (k : ℚ) (lists : List (List DocumentScore)) : List DocumentScore :=
  let occs := fusionOccs lists
  let buckets := (keysInOrder occs).map (specBucket k occs)
  assignRanks (sortByScoreDesc (buckets.map bucketToDoc))

/-! ## CrossEncoderReranker (src/api/rerank_utils.py) and RerankTool
(src/api/tools/rerank_tool.py)

The cross-encoder scoring model is an oracle `Option (String → String → ℚ)`;
`none` models `self.cross_encoder is None` (model unavailable).  A `predict`
exception is handled by the source exactly like an unavailable model
(pass-through of `documents[:top_k]`) and is not modelled separately. -/

/-- `CrossEncoderReranker.rerank_documents` (rerank_utils.py lines 32-74). -/
def rerank_documents (enc : Option (String → String → ℚ)) (query : String)
    (documents : List DocumentScore) (top_k : Nat) : List DocumentScore :=
  match enc with
  | none => documents.take top_k
  | some f =>
    if documents.isEmpty then []
    else
      let scored := documents.map fun d => { d with score := f query d.content }
      (sortByScoreDesc scored).take top_k

/-- `CrossEncoderReranker.rerank_with_threshold` (rerank_utils.py lines 76-99). -/
def rerank_with_threshold (enc : Option (String → String → ℚ)) (query : String)
    (documents : List DocumentScore) (threshold : ℚ) (top_k : Nat) : List DocumentScore :=
  let reranked_docs := rerank_documents enc query documents top_k
  let filtered_docs := reranked_docs.filter fun d => decide (threshold ≤ d.score)
  if filtered_docs.isEmpty then reranked_docs.take top_k else filtered_docs

/-- `RerankTool.invoke` (rerank_tool.py lines 14-35), on the document list it
carries in its params.  The tool loads its own model; `enc = none` models the
load failure path. -/
def RerankTool.invoke (enc : Option (String → String → ℚ)) (query : String)
    (docs : List DocumentScore) (threshold : ℚ) (top_k : Nat) : List DocumentScore :=
  match enc with
  | none => docs.take top_k
  | some f =>
    if docs.isEmpty then docs.take top_k
    else
      let scored := docs.map fun d => { d with score := f query d.content }
      let sorted := sortByScoreDesc scored
      let flt := sorted.filter fun d => decide (threshold ≤ d.score)
      let reranked := if flt.isEmpty then sorted.take top_k else flt
      reranked.take top_k

/-! ## ExpansionTool (src/api/tools/expansion_tool.py)

The Gemini call is an oracle `Option String` (the raw response text, `none`
when the call raises).  The chat history only feeds the prompt, hence only the
oracle; it is not modelled separately. -/

/-- `ExpansionTool._expand_query`: split the response into stripped non-blank
lines; on an empty line list or a failed call return `[original_query]`. -/
def expandQueryLines (oracleText : Option String) (original : String) : List String :=
  match oracleText with
  | none => [original]
  | some txt =>
    let lines := ((pySplitNewline txt).map pyStrip).filter fun l => l ≠ ""
    if lines.isEmpty then [original] else lines

/-- The dedup key of `ExpansionTool.invoke`: `q.lower().strip()`. -/
def expKey (q : String) : String :=
  pyStrip (pyLower q)

/-- The query list of `ExpansionTool.invoke` right before deduplication:
the expansion lines with the original query prepended when the head does not
already match it case-insensitively and it does not occur verbatim. -/
def ExpansionTool.candidateQueries (oracleText : Option String) (query : String) : List String :=
  let queries := expandQueryLines oracleText query
  if query ≠ "" ∧ (queries.isEmpty ∨ pyLower (pyStrip (queries.headD "")) ≠ pyLower (pyStrip query)) then
    if query ∈ queries then queries else query :: queries
  else queries

/-- The deduplication fold of `ExpansionTool.invoke`: keep a query whenever
its key is non-blank and unseen (`seen` accumulates the keys). -/
def dedupCIFold (queries : List String) : List String :=
  (queries.foldl
    (fun (acc : List String × List String) q =>
      let key := expKey q
      if key ≠ "" ∧ key ∉ acc.1 then (acc.1 ++ [key], acc.2 ++ [q]) else acc)
    ([], [])).2

/-- Recursive restatement of the deduplication fold, used in proofs. -/
def dedupCIRec (seen : List String) : List String → List String
  | [] => []
  | q :: rest =>
    if expKey q ≠ "" ∧ expKey q ∉ seen then q :: dedupCIRec (seen ++ [expKey q]) rest
    else dedupCIRec seen rest

/-- `ExpansionTool.invoke` (expansion_tool.py lines 58-74): possibly prepend
the original query, then deduplicate case-insensitively (dropping blank keys)
while preserving first-seen order. -/
def ExpansionTool.invoke (oracleText : Option String) (query : String) : List String :=
  dedupCIFold (ExpansionTool.candidateQueries oracleText query)

/-! ## QueryAnalyzer (src/api/query_analyzer.py)

`plan_tasks` with the Groq LLM call, the JSON-block extraction and
`json.loads` modelled together as one oracle `Option (List RawItem)`:
`none` is any exception in the try block (LLM failure, no JSON, parse error);
`some items` is a successfully parsed JSON array whose entries are either
non-dict values (skipped by `_post_process_tasks`) or objects carrying the
fields the post-processor reads.  A parsed non-array JSON value makes
`_post_process_tasks` return `[]` and then triggers the same single-task
fallback as `some []`, so it needs no separate representation.  Chat history
and the tool catalog only feed the prompt and are not modelled. -/

/-- A JSON field value as read by `dict.get`: absent, `null`, or a string.
Non-string non-null values are not modelled: for `tool` they behave like an
unknown tool name, and for `standalone`/`question` they raise inside the try
block, which is the `none` oracle case. -/
inductive JField where
  | missing
  | null
  | str (s : String)
deriving DecidableEq, Repr

/-- Python `t.get(key) or ""` for a `JField` (empty string is falsy). -/
def JField.toStr : JField → String
  | .str s => s
  | _ => ""

/-- One planner-output object with the fields `_post_process_tasks` reads. -/
structure RawTask where
  tool : JField
  standalone : JField
  question : JField
  location : JField
  expression : JField
deriving DecidableEq, Repr

/-- One entry of the parsed JSON array. -/
inductive RawItem where
  | notDict
  | dict (t : RawTask)
deriving DecidableEq, Repr

/-- One cleaned task as produced by `_post_process_tasks`.  `location = none`
models an absent key, `some none` a key holding `null`. -/
structure PlannedTask where
  tool : String
  standalone : String
  location : Option (Option String)
  expression : Option String
deriving DecidableEq, Repr

/-- The regex word list of the trailing-`?` heuristic. -/
def questionWords : List String :=
  ["what", "where", "when", "how", "who", "which", "do", "does", "is", "are", "can", "should"]

/-- Anchored match of `(\d+(?:\.\d+)?)\s*([+\-*/])\s*(\d+(?:\.\d+)?)`
(`_EXPR_REGEX` of query_analyzer.py); greedy maximal-munch is equivalent to
the backtracking semantics for this pattern. -/
def exprPatAt (cs : List Char) : Option (List Char × Char × List Char) := do
  let (a, r) ← matchNumber cs
  let r := r.dropWhile Char.isWhitespace
  match r with
  | op :: r2 =>
    if opTokens.contains op then do
      let (b, _) ← matchNumber (r2.dropWhile Char.isWhitespace)
      some (a, op, b)
    else none
  | [] => none

/-- `QueryAnalyzer._extract_expression` (query_analyzer.py lines 153-164). -/
def QueryAnalyzer.extract_expression (text : String) : Option String :=
  if text = "" then none
  else
    match reSearch exprPatAt text.toList with
    | some (a, op, b) => some (String.mk a ++ " " ++ String.mk [op] ++ " " ++ String.mk b)
    | none =>
      let cleaned := pyStrip (String.mk (text.toList.filter isSafeChar))
      match reSearch exprPatAt cleaned.toList with
      | some (a, op, b) => some (String.mk a ++ " " ++ String.mk [op] ++ " " ++ String.mk b)
      | none => none

/-- Python `standalone[:1].isalpha()`. -/
def headIsAlpha (s : String) : Bool :=
  match s.toList with
  | c :: _ => c.isAlpha
  | [] => false

/-- The per-item body of `QueryAnalyzer._post_process_tasks`. -/
def postProcessTask (user_text : String) (t : RawTask) : PlannedTask :=
  let tool := pyLower (pyStrip (JField.toStr t.tool))
  let tool := if tool = "calc" ∨ tool = "calculation" then "calculator" else tool
  let tool := if tool = "vector_search" then "rag" else tool
  let tool := if tool = "rag" ∨ tool = "calculator" ∨ tool = "weather" then tool else "direct"
  let standalone := (firstNonEmptyStr [JField.toStr t.standalone, JField.toStr t.question,
    user_text])
  let standalone := pyStrip standalone
  let standalone :=
    if standalone ≠ "" ∧ ¬(pyEndsWithQmark standalone = true) ∧ headIsAlpha standalone
        ∧ questionWords.any (fun w => hasWholeWord standalone w) then
      standalone ++ "?"
    else standalone
  let location : Option (Option String) :=
    match t.location with
    | .missing => none
    | .null => some none
    | .str s => some (if pyStrip s ≠ "" then some s else none)
  let expr0 := JField.toStr t.expression
  let expr := if expr0 = "" then QueryAnalyzer.extract_expression standalone else some expr0
  let expression : Option String :=
    match expr with
    | some e => if e ≠ "" then some e else none
    | none => none
  ⟨tool, standalone, location, expression⟩

/-- `QueryAnalyzer._post_process_tasks` (query_analyzer.py lines 116-151):
skip non-dict entries, clean each task, cap the list at 3. -/
def post_process_tasks (user_text : String) (items : List RawItem) : List PlannedTask :=
  (items.filterMap fun it =>
    match it with
    | .notDict => none
    | .dict t => some (postProcessTask user_text t)).take 3

/-- The single-task fallback `[{"tool": "direct", "standalone": user_text}]`
built from the (already stripped) user text. -/
def directFallback (user_text : String) : PlannedTask :=
  ⟨"direct", user_text, none, none⟩

/-- `QueryAnalyzer.plan_tasks` (query_analyzer.py lines 39-113). -/
def plan_tasks (user_text : String) (planner : Option (List RawItem)) : List PlannedTask :=
  let user_text := pyStrip user_text
  if user_text = "" then []
  else
    match planner with
    | some items =>
      let cleaned := post_process_tasks user_text items
      if cleaned.isEmpty then [directFallback user_text] else cleaned
    | none => [directFallback user_text]

/-! ## Orchestration sufficiency (src/api/agent_manager.py lines 322-328) -/

/-- One subtask record as inspected by the sufficiency loop.  Non-`rag`
subtask dicts have no `final_documents` key and non-`calculator` ones usually
no `error` key; `dict.get` turns an absent key into falsy `None`, so the
defaults `[]`/`none` are faithful for the fields the loop reads. -/
structure OrchSubtask where
  type : String
  error : Option String
  final_documents : List DocumentScore
deriving DecidableEq, Repr

/-- The sufficiency loop: start from `True`; a `rag` subtask with no final
documents or a `calculator` subtask with a non-`None` error flips it to
`False`. -/
def sufficiencyVerdict (subtasks : List OrchSubtask) : Bool :=
  subtasks.foldl
    (fun suff st =>
      let suff := if st.type = "rag" ∧ st.final_documents.isEmpty then false else suff
      if st.type = "calculator" ∧ st.error ≠ none then false else suff)
    true


/-- The tail of `CalculatorTool.use_calculator` after the expression string is
fixed: the `_SAFE_PATTERN` guard followed by `eval`. -/
def runSafeExpr (expr : String) : CalcResult :=
  if !safePattern expr then
    { tool := "calculator", result := none, error := some "unsupported expression" }
  else
    match evalArith expr with
    | .ok v => { tool := "calculator", result := some v, error := none }
    | .error e => { tool := "calculator", result := none, error := some e }

/-- The total fused score a dedup key receives in a document list (used to
state commutativity of RRF in the order of the input lists). -/
def keyScoreSum (docs : List DocumentScore) (key : String) : ℚ :=
  (docs.map fun d => if pyTake d.content 100 = key then d.score else 0).sum

/-- The total contribution `1/(k + rank)` a dedup key receives over a list of
occurrences. -/
def occContribSum (k : ℚ) (occs : List FusionOcc) (key : String) : ℚ :=
  (occs.map fun o => if occKey o = key then 1 / (k + (o.rnk : ℚ)) else 0).sum

/-- The contribution a single ranked list gives to a dedup key (content-based
keys only, as appropriate when every content is non-empty). -/
def perListSum (k : ℚ) (l : List DocumentScore) (key : String) : ℚ :=
  (l.enum.map fun p => if pyTake p.2.content 100 = key then 1 / (k + (p.1 : ℚ)) else 0).sum

/-- Two sample passages with distinct non-empty contents, used for concrete
instantiations. -/
def sampleDocA : DocumentScore := ⟨"alpha", [], 1, "q1", 0⟩

/-- A second sample passage. -/
def sampleDocB : DocumentScore := ⟨"beta", [], 1, "q2", 0⟩

/-! # Theorems -/

/-- Helper: the step of the sufficiency loop is conjunction with a per-subtask
predicate. -/
theorem sufficiency_step_eq (b : Bool) (st : OrchSubtask) :
    (let s2 := if st.type = "rag" ∧ st.final_documents.isEmpty then false else b
     if st.type = "calculator" ∧ st.error ≠ none then false else s2)
    = (b && (!(decide (st.type = "rag") && st.final_documents.isEmpty)
        && !(decide (st.type = "calculator") && decide (st.error ≠ none)))) := by
  by_cases h1 : st.type = "rag" <;>
    by_cases h2 : st.final_documents.isEmpty = true <;>
      by_cases h3 : st.type = "calculator" <;>
        by_cases h4 : st.error = none <;>
          simp [h1, h2, h3, h4]

/-- Helper: the sufficiency fold evaluates to `List.all` of that predicate. -/
theorem sufficiencyVerdict_eq_all (sts : List OrchSubtask) :
    sufficiencyVerdict sts
      = sts.all fun st =>
          !(decide (st.type = "rag") && st.final_documents.isEmpty)
          && !(decide (st.type = "calculator") && decide (st.error ≠ none)) := by
  have aux : ∀ (l : List OrchSubtask) (b : Bool),
      l.foldl (fun suff st =>
        let s2 := if st.type = "rag" ∧ st.final_documents.isEmpty then false else suff
        if st.type = "calculator" ∧ st.error ≠ none then false else s2) b
      = (b && l.all fun st =>
          !(decide (st.type = "rag") && st.final_documents.isEmpty)
          && !(decide (st.type = "calculator") && decide (st.error ≠ none))) := by
    intro l
    induction l with
    | nil => intro b; simp
    | cons st rest ih =>
      intro b
      rw [List.foldl_cons, ih, sufficiency_step_eq, List.all_cons]
      rw [Bool.and_assoc]
  exact aux sts true

/-- Helper: a list's `isEmpty` is `false` exactly when it is not `[]`. -/
theorem isEmpty_false_iff {α : Type} (l : List α) : l.isEmpty = false ↔ l ≠ [] := by
  cases l <;> simp

/-- C8: for every finished orchestration turn, the sufficiency verdict equals
the conjunction over all subtask results of (type is not calculator OR its
error is nil) AND (type is not rag OR its passage list is non-empty); subtasks
of any other type (direct, weather, greeting) never make the verdict false. -/
theorem C8_sufficiency_conjunction :
    (∀ sts : List OrchSubtask,
      sufficiencyVerdict sts = true ↔
        ∀ st ∈ sts, (st.type = "calculator" → st.error = none)
          ∧ (st.type = "rag" → st.final_documents ≠ []))
  ∧ (∀ sts : List OrchSubtask,
      (∀ st ∈ sts, st.type ≠ "calculator" ∧ st.type ≠ "rag") →
        sufficiencyVerdict sts = true) := by
  have main : ∀ sts : List OrchSubtask,
      sufficiencyVerdict sts = true ↔
        ∀ st ∈ sts, (st.type = "calculator" → st.error = none)
          ∧ (st.type = "rag" → st.final_documents ≠ []) := by
    intro sts
    rw [sufficiencyVerdict_eq_all, List.all_eq_true]
    constructor
    · intro h st hst
      have := h st hst
      simp only [Bool.and_eq_true, Bool.not_eq_true', Bool.and_eq_false_iff,
        decide_eq_false_iff_not, decide_eq_true_eq, isEmpty_false_iff] at this
      constructor
      · intro hc
        rcases this.2 with h' | h'
        · exact absurd hc h'
        · simpa using h'
      · intro hr
        rcases this.1 with h' | h'
        · exact absurd hr h'
        · exact h'
    · intro h st hst
      have := h st hst
      simp only [Bool.and_eq_true, Bool.not_eq_true', Bool.and_eq_false_iff,
        decide_eq_false_iff_not, decide_eq_true_eq, isEmpty_false_iff]
      constructor
      · by_cases hr : st.type = "rag"
        · exact Or.inr (this.2 hr)
        · exact Or.inl hr
      · by_cases hc : st.type = "calculator"
        · exact Or.inr (by simpa using this.1 hc)
        · exact Or.inl hc
  refine ⟨main, ?_⟩
  intro sts h
  rw [main]
  intro st hst
  exact ⟨fun hc => absurd hc (h st hst).1, fun hr => absurd hr (h st hst).2⟩

/-- Witness for C8: a turn made only of weather and direct subtasks is judged
sufficient, through the characterization theorem. -/
theorem C8_sufficiency_conjunction_witness :
    sufficiencyVerdict [⟨"weather", none, []⟩, ⟨"direct", none, []⟩] = true :=
  C8_sufficiency_conjunction.2 [⟨"weather", none, []⟩, ⟨"direct", none, []⟩] (by decide)

/-- C10: the weighted fusion variant on an empty list of query-result lists
with unspecified weights builds the default weight vector `[2.0]` and raises
the weights-length validation error instead of returning an empty result. -/
theorem C10_fuse_with_weights_empty_raises :
    fuse_with_weights 60 [] none = .error "Số lượng weights phải bằng số lượng queries"
  ∧ defaultFusionWeights 0 = [2] :=
  ⟨rfl, rfl⟩

/-- C1: on the input "What is 12 + 7?" the planner-side expression extraction
does yield "12 + 7" and `CalculatorTool.use_calculator` on it returns result
19 with a nil error — but the dispatcher `AgentManager.use_calculator`
(agent_manager.py line 163) calls the non-existent method
`CalculatorTool.calculate`, so the actual dispatch raises `AttributeError`
instead of returning that result. -/
theorem C1_calculator_dispatch_attribute_error :
    AgentManager.use_calculator ⟨none⟩ "12 + 7" = .error "AttributeError"
  ∧ CalculatorTool.use_calculator ⟨none⟩ "12 + 7"
      = { tool := "calculator", result := some 19, error := none }
  ∧ QueryAnalyzer.extract_expression "What is 12 + 7?" = some "12 + 7"
  ∧ postProcessTask "What is 12 + 7?"
      ⟨.str "calculator", .str "What is 12 + 7?", .missing, .missing, .missing⟩
      = ⟨"calculator", "What is 12 + 7?", none, some "12 + 7"⟩ := by
  refine ⟨rfl, ?_, by decide, by decide⟩
  have h : CalculatorTool.use_calculator ⟨none⟩ "12 + 7"
      = { tool := "calculator", result := some ((12 : ℚ) + 7), error := none } := rfl
  have h19 : (12 : ℚ) + 7 = 19 := by norm_num
  rw [h, h19]

/-- C9: the calculator tool is stateful across calls.  If a preceding
`looks_like_calculation` call cached a non-empty extracted expression,
`use_calculator e` evaluates that cached expression — the result is the same
for every argument `e` — and the argument is parsed only when no (non-blank)
cached expression exists. -/
theorem C9_calculator_statefulness :
    (∀ (st : CalculatorTool) (q e e' : String) (st' : CalculatorTool),
      CalculatorTool.looks_like_calculation st q = (true, st') →
      ∀ c, st'.last_expr = some c → pyStrip c ≠ "" →
        CalculatorTool.use_calculator st' e = CalculatorTool.use_calculator st' e'
        ∧ CalculatorTool.use_calculator st' e = runSafeExpr (pyStrip c))
  ∧ (∀ (st : CalculatorTool) (e : String), pyStrip (st.last_expr.getD "") = "" →
      CalculatorTool.use_calculator st e
        = runSafeExpr ((CalculatorTool.extract_math_expression (pyStrip e)).getD "")) := by
  constructor
  · intro st q e e' st' _ c hc hne
    have key : ∀ x : String, CalculatorTool.use_calculator st' x = runSafeExpr (pyStrip c) := by
      intro x
      unfold CalculatorTool.use_calculator runSafeExpr
      rw [hc]
      simp only [Option.getD_some, if_neg hne]
    exact ⟨(key e).trans (key e').symm, key e⟩
  · intro st e hblank
    unfold CalculatorTool.use_calculator runSafeExpr
    simp only [hblank, if_pos]

/-- Witness for C9: after `looks_like_calculation` on "What is 12 + 7?"
cached "12 + 7", `use_calculator` returns the same answer for two completely
different arguments. -/
theorem C9_calculator_statefulness_witness :
    CalculatorTool.use_calculator ⟨some "12 + 7"⟩ "999 * 0"
      = CalculatorTool.use_calculator ⟨some "12 + 7"⟩ "1 - 1" :=
  (C9_calculator_statefulness.1 ⟨none⟩ "What is 12 + 7?" "999 * 0" "1 - 1"
    ⟨some "12 + 7"⟩ (by decide) "12 + 7" rfl (by decide)).1

/-- Counterexample to C6 as stated: with the scoring model unavailable,
`rerank_with_threshold` still threshold-filters on the documents' pre-existing
(fusion) scores.  With two documents of stale scores 1 and 0, threshold 1 and
topK 2, it returns only the first document instead of the top-2 pass-through
`docs.take 2`. -/
theorem C6_model_unavailable_counterexample :
    rerank_with_threshold none "q" [⟨"a", [], 1, "q0", 0⟩, ⟨"b", [], 0, "q0", 1⟩] 1 2
      = [⟨"a", [], 1, "q0", 0⟩]
  ∧ ([⟨"a", [], 1, "q0", 0⟩] : List DocumentScore)
      ≠ ([⟨"a", [], 1, "q0", 0⟩, ⟨"b", [], 0, "q0", 1⟩] : List DocumentScore).take 2 := by
  constructor
  · unfold rerank_with_threshold rerank_documents
    norm_num
  · simp

/-- C6 (amended): if the cross-encoder scoring model is unavailable,
`rerank_documents` and the rerank tool return the top `topK` input documents
in their pre-existing order with no exception; `rerank_with_threshold`
additionally filters that pass-through list by the documents' pre-existing
scores against the threshold, and only returns the plain top-`topK`
pass-through when no pre-existing score meets the threshold. -/
theorem C6_model_unavailable_passthrough (query : String) (docs : List DocumentScore)
    (threshold : ℚ) (top_k : Nat) :
    rerank_documents none query docs top_k = docs.take top_k
  ∧ RerankTool.invoke none query docs threshold top_k = docs.take top_k
  ∧ rerank_with_threshold none query docs threshold top_k
      = (let pass := docs.take top_k
         let kept := pass.filter fun d => decide (threshold ≤ d.score)
         if kept.isEmpty then pass else kept) := by
  refine ⟨rfl, rfl, ?_⟩
  unfold rerank_with_threshold rerank_documents
  simp only [List.take_take, min_self]

/-- C5: for a non-empty document list with the scoring model available, if
every document's model relevance score is below the threshold, the
threshold-rerank returns exactly `min topK (length documents)` documents —
never an empty list. -/
theorem C5_threshold_empty_fallback (f : String → String → ℚ) (query : String)
    (documents : List DocumentScore) (threshold : ℚ) (top_k : Nat)
    (hne : documents ≠ [])
    (hbelow : ∀ d ∈ documents, f query d.content < threshold) :
    (rerank_with_threshold (some f) query documents threshold top_k).length
      = min top_k documents.length := by
  have hmem : ∀ x ∈ documents.map (fun d => { d with score := f query d.content }),
      x.score < threshold := by
    intro x hx
    rcases List.mem_map.mp hx with ⟨d, hd, rfl⟩
    exact hbelow d hd
  have hSmem : ∀ x ∈ sortByScoreDesc (documents.map fun d => { d with score := f query d.content }),
      x.score < threshold := by
    intro x hx
    exact hmem x ((List.perm_insertionSort scoreDesc _).mem_iff.mp hx)
  have hRD : rerank_documents (some f) query documents top_k
      = (sortByScoreDesc (documents.map fun d => { d with score := f query d.content })).take top_k := by
    unfold rerank_documents
    simp [List.isEmpty_iff, hne]
  have hfilter :
      ((sortByScoreDesc (documents.map fun d => { d with score := f query d.content })).take
        top_k).filter (fun d => decide (threshold ≤ d.score)) = [] := by
    rw [List.filter_eq_nil_iff]
    intro a ha
    have := hSmem a (List.mem_of_mem_take ha)
    simp only [decide_eq_true_eq]
    intro hcon
    exact absurd hcon (not_le.mpr this)
  have hlen : (sortByScoreDesc (documents.map fun d =>
      { d with score := f query d.content })).length = documents.length := by
    simp [sortByScoreDesc]
  unfold rerank_with_threshold
  simp only [hRD, hfilter]
  simp [List.take_take, min_self, List.length_take, hlen]

/-- Witness for C5: one document scoring 0 against threshold 1 still yields
`min 5 1` documents. -/
theorem C5_threshold_empty_fallback_witness :
    (rerank_with_threshold (some fun _ _ => (0 : ℚ)) "q"
        [⟨"a", [], 0, "q", 0⟩] 1 5).length = min 5 1 :=
  C5_threshold_empty_fallback (fun _ _ => (0 : ℚ)) "q" [⟨"a", [], 0, "q", 0⟩] 1 5
    (by simp) (by intro d _; norm_num)

/-- Helper: lowercasing one character preserves whitespace-ness. -/
theorem pyCharLower_isWhitespace (c : Char) :
    (pyCharLower c).isWhitespace = c.isWhitespace := by
  unfold pyCharLower
  cases h : asciiLowerPairs.find? (fun p => p.1 = c) with
  | none => rfl
  | some p =>
    have hc : p.1 = c := by simpa using List.find?_some h
    have hmem : p ∈ asciiLowerPairs := List.mem_of_find?_eq_some h
    have htab : ∀ q ∈ asciiLowerPairs, q.2.isWhitespace = q.1.isWhitespace := by decide
    simp only [Option.map_some', Option.getD_some, htab p hmem, hc]

/-- Helper: Python `strip` and `lower` commute. -/
theorem pyLower_pyStrip_comm (s : String) : pyStrip (pyLower s) = pyLower (pyStrip s) := by
  have hfun : Char.isWhitespace ∘ pyCharLower = Char.isWhitespace :=
    funext fun c => pyCharLower_isWhitespace c
  unfold pyStrip pyLower
  apply congrArg String.mk
  show ((((s.toList.map pyCharLower).dropWhile Char.isWhitespace).reverse.dropWhile
      Char.isWhitespace).reverse)
    = ((((s.toList.dropWhile Char.isWhitespace).reverse.dropWhile
      Char.isWhitespace).reverse).map pyCharLower)
  rw [List.dropWhile_map, hfun, ← List.map_reverse, List.dropWhile_map, hfun,
    ← List.map_reverse]

/-- Helper: the expansion line splitter never returns an empty list. -/
theorem expandQueryLines_ne_nil (oracle : Option String) (q : String) :
    expandQueryLines oracle q ≠ [] := by
  unfold expandQueryLines
  cases oracle with
  | none => simp
  | some txt =>
    dsimp only
    split
    · simp
    · rename_i hfalse
      simpa [List.isEmpty_iff] using hfalse

/-- Helper: the dedup fold of `ExpansionTool.invoke` equals its recursive
restatement. -/
theorem dedupCIFold_eq_rec (queries : List String) :
    dedupCIFold queries = dedupCIRec [] queries := by
  have aux : ∀ (l : List String) (seen out : List String),
      (l.foldl
        (fun (acc : List String × List String) q =>
          let key := expKey q
          if key ≠ "" ∧ key ∉ acc.1 then (acc.1 ++ [key], acc.2 ++ [q]) else acc)
        (seen, out)).2
      = out ++ dedupCIRec seen l := by
    intro l
    induction l with
    | nil => intro seen out; simp [dedupCIRec]
    | cons q rest ih =>
      intro seen out
      rw [List.foldl_cons]
      dsimp only
      by_cases h : expKey q ≠ "" ∧ expKey q ∉ seen
      · rw [if_pos h, ih, dedupCIRec, if_pos h]
        simp
      · rw [if_neg h, ih, dedupCIRec, if_neg h]
  unfold dedupCIFold
  simpa using aux queries [] []

/-- Helper: the dedup pass keeps an entry whenever some element has a fresh
non-blank key, so its output is then non-empty. -/
theorem dedupCIRec_ne_nil (l : List String) :
    ∀ seen, (∃ x ∈ l, expKey x ≠ "" ∧ expKey x ∉ seen) → dedupCIRec seen l ≠ [] := by
  induction l with
  | nil => intro seen h; rcases h with ⟨x, hx, _⟩; cases hx
  | cons q rest ih =>
    intro seen h
    by_cases hq : expKey q ≠ "" ∧ expKey q ∉ seen
    · simp [dedupCIRec, hq]
    · rcases h with ⟨x, hx, hkey⟩
      rcases List.mem_cons.mp hx with rfl | hx'
      · exact absurd hkey hq
      · simp only [dedupCIRec, if_neg hq]
        exact ih seen ⟨x, hx', hkey⟩

/-- Helper: the dedup pass returns a sublist of its input. -/
theorem dedupCIRec_sublist (l : List String) :
    ∀ seen, (dedupCIRec seen l).Sublist l := by
  induction l with
  | nil => intro seen; simp [dedupCIRec]
  | cons q rest ih =>
    intro seen
    by_cases hq : expKey q ≠ "" ∧ expKey q ∉ seen
    · simp only [dedupCIRec, if_pos hq]
      exact (ih (seen ++ [expKey q])).cons₂ q
    · simp only [dedupCIRec, if_neg hq]
      exact (ih seen).cons q

/-- Helper: the dedup pass emits pairwise-distinct keys, none of them already
seen. -/
theorem dedupCIRec_keys_nodup (l : List String) :
    ∀ seen, ((dedupCIRec seen l).map expKey).Nodup
      ∧ ∀ x ∈ dedupCIRec seen l, expKey x ∉ seen := by
  induction l with
  | nil => intro seen; simp [dedupCIRec]
  | cons q rest ih =>
    intro seen
    by_cases hq : expKey q ≠ "" ∧ expKey q ∉ seen
    · simp only [dedupCIRec, if_pos hq, List.map_cons, List.nodup_cons]
      have ih' := ih (seen ++ [expKey q])
      refine ⟨⟨?_, ih'.1⟩, ?_⟩
      · intro hmemkey
        rcases List.mem_map.mp hmemkey with ⟨x, hx, hkx⟩
        have := ih'.2 x hx
        simp [hkx] at this
      · intro x hx
        rcases List.mem_cons.mp hx with rfl | hx'
        · exact hq.2
        · intro hscon
          exact (ih'.2 x hx') (List.mem_append_left _ hscon)
    · simp only [dedupCIRec, if_neg hq]
      exact ih seen

/-- Helper: the two outcomes of the prepend step of `ExpansionTool.invoke`. -/
theorem candidateQueries_cases (oracle : Option String) (q : String) (hq' : q ≠ "") :
    (ExpansionTool.candidateQueries oracle q = q :: expandQueryLines oracle q
      ∧ q ∉ expandQueryLines oracle q)
  ∨ (ExpansionTool.candidateQueries oracle q = expandQueryLines oracle q
      ∧ (q ∈ expandQueryLines oracle q
        ∨ pyLower (pyStrip ((expandQueryLines oracle q).headD ""))
            = pyLower (pyStrip q))) := by
  unfold ExpansionTool.candidateQueries
  dsimp only
  by_cases hhead : pyLower (pyStrip ((expandQueryLines oracle q).headD ""))
      = pyLower (pyStrip q)
  · right
    rw [if_neg]
    · exact ⟨rfl, Or.inr hhead⟩
    · rintro ⟨-, h2 | h2⟩
      · exact expandQueryLines_ne_nil oracle q (by simpa [List.isEmpty_iff] using h2)
      · exact h2 hhead
  · by_cases hmem : q ∈ expandQueryLines oracle q
    · right
      rw [if_pos ⟨hq', Or.inr hhead⟩, if_pos hmem]
      exact ⟨rfl, Or.inl hmem⟩
    · left
      rw [if_pos ⟨hq', Or.inr hhead⟩, if_neg hmem]
      exact ⟨rfl, hmem⟩

/-- Counterexample to C7 as stated: for the empty question with a failed
external generation call, the expansion returns the empty list — not a list
of at least one query, and not `[question]`. -/
theorem C7_expansion_counterexample :
    ExpansionTool.invoke none "" = [] ∧ ([] : List String) ≠ [""] :=
  ⟨by decide, by decide⟩

/-- C7 (amended): for every question whose case-insensitive stripped form is
non-blank, expansion returns at least one query; on failure of the external
generation call the result is exactly `[question]`; the first element is the
question itself whenever the generation output neither starts with a
case-insensitive match of the question nor contains it verbatim; and the
result is a first-seen-order sublist of the candidate list with pairwise
distinct case-insensitive keys. -/
theorem C7_expansion_contract (oracle : Option String) (q : String)
    (hq : expKey q ≠ "") :
    1 ≤ (ExpansionTool.invoke oracle q).length
  ∧ (oracle = none → ExpansionTool.invoke oracle q = [q])
  ∧ ((pyLower (pyStrip ((expandQueryLines oracle q).headD "")) ≠ pyLower (pyStrip q)
      ∧ q ∉ expandQueryLines oracle q) →
      (ExpansionTool.invoke oracle q).head? = some q)
  ∧ (ExpansionTool.invoke oracle q).Sublist (ExpansionTool.candidateQueries oracle q)
  ∧ ((ExpansionTool.invoke oracle q).map expKey).Nodup := by
  have hq' : q ≠ "" := by
    intro h
    apply hq
    rw [h]
    decide
  have hrec : ExpansionTool.invoke oracle q
      = dedupCIRec [] (ExpansionTool.candidateQueries oracle q) := by
    unfold ExpansionTool.invoke
    exact dedupCIFold_eq_rec _
  refine ⟨?_, ?_, ?_, ?_, ?_⟩
  · -- at least one query
    rw [hrec]
    have hwit : ∃ x ∈ ExpansionTool.candidateQueries oracle q,
        expKey x ≠ "" ∧ expKey x ∉ ([] : List String) := by
      rcases candidateQueries_cases oracle q hq' with ⟨hL, -⟩ | ⟨hL, hcase⟩
      · exact ⟨q, by rw [hL]; exact List.mem_cons_self q _, hq, by simp⟩
      · rcases hcase with hmem | hhead
        · exact ⟨q, by rw [hL]; exact hmem, hq, by simp⟩
        · rcases hE : expandQueryLines oracle q with - | ⟨h0, t⟩
          · exact absurd hE (expandQueryLines_ne_nil oracle q)
          · refine ⟨h0, by rw [hL, hE]; exact List.mem_cons_self h0 t, ?_, by simp⟩
            have : expKey h0 = expKey q := by
              unfold expKey
              rw [pyLower_pyStrip_comm, pyLower_pyStrip_comm]
              have : (expandQueryLines oracle q).headD "" = h0 := by rw [hE]; rfl
              rw [← this]
              exact hhead
            rw [this]
            exact hq
    have := dedupCIRec_ne_nil (ExpansionTool.candidateQueries oracle q) [] hwit
    exact Nat.one_le_iff_ne_zero.mpr (fun hlen => this (List.eq_nil_of_length_eq_zero hlen))
  · -- failure of the external call
    intro ho
    subst ho
    have hL : ExpansionTool.candidateQueries none q = [q] := by
      unfold ExpansionTool.candidateQueries expandQueryLines
      dsimp only
      rw [if_neg]
      rintro ⟨-, h2 | h2⟩
      · simp at h2
      · exact h2 (by rfl)
    rw [hrec, hL, dedupCIRec, if_pos ⟨hq, by simp⟩]
    rfl
  · -- first element is the question
    rintro ⟨hhead, hmem⟩
    have hL : ExpansionTool.candidateQueries oracle q = q :: expandQueryLines oracle q := by
      rcases candidateQueries_cases oracle q hq' with ⟨hL, -⟩ | ⟨-, hcase⟩
      · exact hL
      · rcases hcase with h | h
        · exact absurd h hmem
        · exact absurd h hhead
    rw [hrec, hL, dedupCIRec, if_pos ⟨hq, by simp⟩]
    rfl
  · -- sublist of the candidate list
    rw [hrec]
    exact dedupCIRec_sublist _ []
  · -- distinct case-insensitive keys
    rw [hrec]
    exact (dedupCIRec_keys_nodup _ []).1

/-- Witness for C7: conjunct (ii) at the question "hello" with a failed
external call gives exactly `["hello"]`. -/
theorem C7_expansion_contract_witness :
    ExpansionTool.invoke none "hello" = ["hello"] :=
  (C7_expansion_contract none "hello" (by decide)).2.1 rfl

/-- Helper: the head of a prefix is the head of the whole list. -/
theorem head?_of_initialPart {α : Type} {l₁ l₂ : List α} {a : α}
    (hp : l₁ <+: l₂) (h : l₁.head? = some a) : l₂.head? = some a := by
  rcases hp with ⟨t, rfl⟩
  cases l₁ with
  | nil => simp at h
  | cons b r => simpa using h

/-- Helper: the elements surviving `dropWhile` start with a non-matching one. -/
theorem head?_dropWhile_false {α : Type} (p : α → Bool) (m : List α) :
    ∀ a, (m.dropWhile p).head? = some a → p a = false := by
  induction m with
  | nil => intro a h; simp at h
  | cons b r ih =>
    intro a h
    rw [List.dropWhile_cons] at h
    by_cases hb : p b = true
    · exact ih a (by rwa [if_pos hb] at h)
    · rw [if_neg hb] at h
      simp only [List.head?_cons, Option.some.injEq] at h
      rw [← h]
      exact Bool.not_eq_true _ ▸ hb

/-- Helper: a list whose head does not match is fixed by `dropWhile`. -/
theorem dropWhile_eq_self_of_head {α : Type} {p : α → Bool} (l : List α)
    (h : ∀ a, l.head? = some a → p a = false) : l.dropWhile p = l := by
  cases l with
  | nil => rfl
  | cons b r =>
    rw [List.dropWhile_cons, if_neg]
    simp [h b rfl]

/-- Helper: Python `strip` is idempotent. -/
theorem pyStrip_idem (s : String) : pyStrip (pyStrip s) = pyStrip s := by
  unfold pyStrip
  apply congrArg String.mk
  generalize s.toList = l
  show (((((((l.dropWhile Char.isWhitespace).reverse.dropWhile
        Char.isWhitespace).reverse).dropWhile Char.isWhitespace).reverse).dropWhile
        Char.isWhitespace).reverse)
    = (((l.dropWhile Char.isWhitespace).reverse.dropWhile Char.isWhitespace).reverse)
  have h1 : (((l.dropWhile Char.isWhitespace).reverse.dropWhile
      Char.isWhitespace).reverse).dropWhile Char.isWhitespace
      = ((l.dropWhile Char.isWhitespace).reverse.dropWhile Char.isWhitespace).reverse := by
    apply dropWhile_eq_self_of_head
    intro a ha
    have hpre : ((l.dropWhile Char.isWhitespace).reverse.dropWhile
        Char.isWhitespace).reverse <+: l.dropWhile Char.isWhitespace := by
      rw [← List.reverse_suffix]
      simpa using List.dropWhile_suffix Char.isWhitespace
    exact head?_dropWhile_false Char.isWhitespace l a (head?_of_initialPart hpre ha)
  rw [h1, List.reverse_reverse, List.dropWhile_idempotent]

/-- Helper: appending the question mark never empties a string. -/
theorem append_qmark_ne_empty (s : String) : s ++ "?" ≠ "" := by
  intro hcon
  have hdata : s.data ++ ['?'] = [] := congrArg String.data hcon
  simp at hdata

/-- Helper: the cleaned standalone of a post-processed task is non-empty
provided the raw standalone/question fields are not whitespace-only and the
(stripped) user text is non-empty. -/
theorem postProcessTask_standalone_ne (ut : String) (t : RawTask)
    (hut : pyStrip ut = ut) (hne : ut ≠ "")
    (hs : JField.toStr t.standalone ≠ "" → pyStrip (JField.toStr t.standalone) ≠ "")
    (hqf : JField.toStr t.question ≠ "" → pyStrip (JField.toStr t.question) ≠ "") :
    (postProcessTask ut t).standalone ≠ "" := by
  have hstrip : pyStrip (firstNonEmptyStr
      [JField.toStr t.standalone, JField.toStr t.question, ut]) ≠ "" := by
    by_cases h1 : JField.toStr t.standalone = ""
    · by_cases h2 : JField.toStr t.question = ""
      · simp only [firstNonEmptyStr, h1, h2, ne_eq, not_true_eq_false, if_false,
          hne, not_false_eq_true, if_true]
        rw [hut]
        exact hne
      · simp only [firstNonEmptyStr, h1, h2, ne_eq, not_true_eq_false, if_false,
          not_false_eq_true, if_true]
        exact hqf h2
    · simp only [firstNonEmptyStr, h1, ne_eq, not_false_eq_true, if_true]
      exact hs h1
  unfold postProcessTask
  dsimp only
  split
  · exact append_qmark_ne_empty _
  · exact hstrip

/-- Counterexample to C2 as stated: the whitespace-only input "   " is a
non-empty input text, yet the planner returns zero tasks for it (not 1..3). -/
theorem C2_plan_tasks_counterexample :
    ("   " : String) ≠ "" ∧ plan_tasks "   " none = [] :=
  ⟨by decide, by decide⟩

/-- C2 (amended): for every input text that is non-empty after stripping
surrounding whitespace, the planner returns between 1 and 3 tasks; if the LLM
planning call fails or yields no usable tasks, the result is exactly one
`direct` task whose standalone question is the stripped input text; and every
returned task's standalone question is non-empty provided the planner
output's standalone/question string fields are not whitespace-only. -/
theorem C2_plan_tasks_contract (user_text : String) (planner : Option (List RawItem))
    (h : pyStrip user_text ≠ "") :
    (1 ≤ (plan_tasks user_text planner).length ∧ (plan_tasks user_text planner).length ≤ 3)
  ∧ ((planner = none
      ∨ ∃ items, planner = some items ∧ post_process_tasks (pyStrip user_text) items = []) →
      plan_tasks user_text planner = [directFallback (pyStrip user_text)])
  ∧ ((∀ items t, planner = some items → RawItem.dict t ∈ items →
        (JField.toStr t.standalone ≠ "" → pyStrip (JField.toStr t.standalone) ≠ "")
        ∧ (JField.toStr t.question ≠ "" → pyStrip (JField.toStr t.question) ≠ "")) →
      ∀ pt ∈ plan_tasks user_text planner, pt.standalone ≠ "") := by
  refine ⟨?_, ?_, ?_⟩
  · unfold plan_tasks
    dsimp only
    rw [if_neg h]
    cases planner with
    | none => simp
    | some items =>
      by_cases hcl : post_process_tasks (pyStrip user_text) items = []
      · simp [hcl]
      · simp only [List.isEmpty_iff, hcl, if_false]
        constructor
        · exact Nat.one_le_iff_ne_zero.mpr
            (fun h0 => hcl (List.eq_nil_of_length_eq_zero h0))
        · unfold post_process_tasks
          exact List.length_take_le 3 _
  · intro hfb
    unfold plan_tasks
    dsimp only
    rw [if_neg h]
    rcases hfb with rfl | ⟨items, rfl, hpost⟩
    · rfl
    · simp [hpost]
  · intro hclean pt hpt
    unfold plan_tasks at hpt
    dsimp only at hpt
    rw [if_neg h] at hpt
    cases planner with
    | none =>
      rw [List.mem_singleton.mp hpt]
      exact h
    | some items =>
      by_cases hcl : post_process_tasks (pyStrip user_text) items = []
      · simp only [List.isEmpty_iff, hcl, if_true, List.mem_singleton] at hpt
        rw [hpt]
        exact h
      · simp only [List.isEmpty_iff, hcl, if_false] at hpt
        unfold post_process_tasks at hpt
        rcases List.mem_filterMap.mp (List.mem_of_mem_take hpt) with ⟨it, hit, hg⟩
        cases it with
        | notDict => simp at hg
        | dict t =>
          simp only [Option.some.injEq] at hg
          rw [← hg]
          have hc := hclean items t rfl hit
          exact postProcessTask_standalone_ne _ t (pyStrip_idem user_text) h hc.1 hc.2

/-- Witness for C2: input "hi" with a failed planning call yields exactly the
single direct task wrapping the stripped text. -/
theorem C2_plan_tasks_contract_witness :
    plan_tasks "hi" none = [directFallback (pyStrip "hi")] :=
  (C2_plan_tasks_contract "hi" none (by decide)).2.1 (Or.inl rfl)

/-- Helper: the two key functions (source-side and spec-side) agree. -/
theorem fusionDocKey_eq_occKey (o : FusionOcc) :
    fusionDocKey o.qIdx o.rnk o.doc.content = occKey o := by
  unfold fusionDocKey occKey
  by_cases h : o.doc.content = ""
  · simp [h]
  · simp [h]

/-- Helper: the nested enumerate loops of `fuse_results` are one fold over the
flattened occurrence list. -/
theorem rrfAll_eq_foldl_occs (k : ℚ) (lists : List (List DocumentScore)) :
    rrfAll k lists
      = (fusionOccs lists).foldl (fun m o => rrfStep k 1 o.qIdx o.rnk o.doc m) [] := by
  unfold rrfAll fusionOccs rrfList
  rw [List.foldl_flatten, List.foldl_map]
  congr 1
  funext m p
  rw [List.foldl_map]

/-- Helper: membership in the first-appearance key list. -/
theorem mem_keysInOrder_foldl (key : String) :
    ∀ (occs : List FusionOcc) (acc : List String),
      (key ∈ occs.foldl (fun acc o => if occKey o ∈ acc then acc else acc ++ [occKey o]) acc
        ↔ key ∈ acc ∨ ∃ o ∈ occs, occKey o = key) := by
  intro occs
  induction occs with
  | nil => intro acc; simp
  | cons o rest ih =>
    intro acc
    rw [List.foldl_cons]
    by_cases h : occKey o ∈ acc
    · rw [if_pos h, ih]
      constructor
      · rintro (ha | ⟨o', ho', hko'⟩)
        · exact Or.inl ha
        · exact Or.inr ⟨o', List.mem_cons_of_mem o ho', hko'⟩
      · rintro (ha | ⟨o', ho', hko'⟩)
        · exact Or.inl ha
        · rcases List.mem_cons.mp ho' with rfl | ho''
          · exact Or.inl (hko' ▸ h)
          · exact Or.inr ⟨o', ho'', hko'⟩
    · rw [if_neg h, ih]
      constructor
      · rintro (ha | hb)
        · rcases List.mem_append.mp ha with ha' | ha'
          · exact Or.inl ha'
          · exact Or.inr ⟨o, List.mem_cons_self o rest, (List.mem_singleton.mp ha').symm⟩
        · rcases hb with ⟨o', ho', hko'⟩
          exact Or.inr ⟨o', List.mem_cons_of_mem o ho', hko'⟩
      · rintro (ha | ⟨o', ho', hko'⟩)
        · exact Or.inl (List.mem_append_left _ ha)
        · rcases List.mem_cons.mp ho' with rfl | ho''
          · exact Or.inl (List.mem_append_right _ (List.mem_singleton.mpr hko'.symm))
          · exact Or.inr ⟨o', ho'', hko'⟩

/-- Helper: a key is recorded exactly when some occurrence carries it. -/
theorem mem_keysInOrder (key : String) (occs : List FusionOcc) :
    key ∈ keysInOrder occs ↔ ∃ o ∈ occs, occKey o = key := by
  unfold keysInOrder
  rw [mem_keysInOrder_foldl key occs []]
  simp

/-- Helper: the first-appearance key list has no duplicates. -/
theorem keysInOrder_nodup (occs : List FusionOcc) : (keysInOrder occs).Nodup := by
  have aux : ∀ (l : List FusionOcc) (acc : List String), acc.Nodup →
      (l.foldl (fun acc o => if occKey o ∈ acc then acc else acc ++ [occKey o]) acc).Nodup := by
    intro l
    induction l with
    | nil => intro acc h; exact h
    | cons o rest ih =>
      intro acc h
      rw [List.foldl_cons]
      by_cases hmem : occKey o ∈ acc
      · rw [if_pos hmem]; exact ih acc h
      · rw [if_neg hmem]
        exact ih _ (by simp [List.nodup_append, h, hmem])
  exact aux occs [] List.nodup_nil

/-- Helper: appending an occurrence with a different key leaves a spec bucket
unchanged. -/
theorem specBucket_append_other (k : ℚ) (occs : List FusionOcc) (o : FusionOcc)
    (κ : String) (hne : κ ≠ occKey o) :
    specBucket k (occs ++ [o]) κ = specBucket k occs κ := by
  unfold specBucket
  rw [List.filter_append]
  have hnil : ([o] : List FusionOcc).filter (fun o' => decide (occKey o' = κ)) = [] := by
    simp [Ne.symm hne]
  rw [hnil, List.append_nil]

/-- Helper: a recorded key has a non-empty occurrence filter. -/
theorem filter_occs_ne_nil (occs : List FusionOcc) (key : String)
    (h : key ∈ keysInOrder occs) :
    occs.filter (fun o => decide (occKey o = key)) ≠ [] := by
  rcases (mem_keysInOrder key occs).mp h with ⟨o, ho, hko⟩
  intro hcon
  rw [List.filter_eq_nil_iff] at hcon
  exact hcon o ho (by simp [hko])

/-- Helper: an unrecorded key has an empty occurrence filter. -/
theorem filter_occs_nil (occs : List FusionOcc) (key : String)
    (h : key ∉ keysInOrder occs) :
    occs.filter (fun o => decide (occKey o = key)) = [] := by
  rw [List.filter_eq_nil_iff]
  intro o ho hcon
  exact h ((mem_keysInOrder key occs).mpr ⟨o, ho, by simpa using hcon⟩)

/-- Helper: appending an occurrence bumps its own (already recorded) spec
bucket by one contribution. -/
theorem specBucket_append_self (k : ℚ) (occs : List FusionOcc) (o : FusionOcc)
    (h : occKey o ∈ keysInOrder occs) :
    specBucket k (occs ++ [o]) (occKey o)
      = (fun b : FusionBucket =>
          ⟨b.content, b.metadata, b.rrf_score + 1 / (k + (o.rnk : ℚ)),
            b.appearances + 1, b.source_queries ++ [o.doc.source_query]⟩)
        (specBucket k occs (occKey o)) := by
  have hne := filter_occs_ne_nil occs (occKey o) h
  unfold specBucket
  rw [List.filter_append]
  have hsingle : ([o] : List FusionOcc).filter (fun o' => decide (occKey o' = occKey o))
      = [o] := by simp
  rw [hsingle]
  rcases hm : occs.filter (fun o' => decide (occKey o' = occKey o)) with - | ⟨m0, mrest⟩
  · exact absurd hm hne
  · simp [List.sum_append]
    ring

/-- Helper: appending an occurrence with a fresh key creates its spec bucket
from that single occurrence. -/
theorem specBucket_append_new (k : ℚ) (occs : List FusionOcc) (o : FusionOcc)
    (h : occKey o ∉ keysInOrder occs) :
    specBucket k (occs ++ [o]) (occKey o)
      = ⟨o.doc.content, o.doc.metadata, 1 / (k + (o.rnk : ℚ)), 1, [o.doc.source_query]⟩ := by
  unfold specBucket
  rw [List.filter_append, filter_occs_nil occs (occKey o) h]
  simp

/-- Helper: key lookup on the spec-shaped association list. -/
theorem assocHasKey_map (keys : List String) (f : String → FusionBucket) (key : String) :
    assocHasKey (keys.map fun κ => (κ, f κ)) key = true ↔ key ∈ keys := by
  unfold assocHasKey
  simp

/-- Helper: in-place update on the spec-shaped association list. -/
theorem assocUpdate_map (keys : List String) (f : String → FusionBucket) (key : String)
    (g : FusionBucket → FusionBucket) :
    assocUpdate (keys.map fun κ => (κ, f κ)) key g
      = keys.map (fun κ => if κ = key then (κ, g (f κ)) else (κ, f κ)) := by
  unfold assocUpdate
  rw [List.map_map]
  apply List.map_congr_left
  intro κ _
  by_cases hκ : κ = key
  · simp [hκ]
  · simp [hκ]

/-- Helper: the accumulator dict built by the `fuse_results` double loop is
exactly the spec-side per-key aggregation, in first-appearance order. -/
theorem foldOccs_eq_spec (k : ℚ) (occs : List FusionOcc) :
    occs.foldl (fun m o => rrfStep k 1 o.qIdx o.rnk o.doc m) []
      = (keysInOrder occs).map (fun κ => (κ, specBucket k occs κ)) := by
  induction occs using List.reverseRecOn with
  | nil => rfl
  | append_singleton occs o ih =>
    rw [List.foldl_append, List.foldl_cons, List.foldl_nil, ih]
    have hkeys : keysInOrder (occs ++ [o])
        = if occKey o ∈ keysInOrder occs then keysInOrder occs
          else keysInOrder occs ++ [occKey o] := by
      unfold keysInOrder
      rw [List.foldl_append, List.foldl_cons, List.foldl_nil]
    unfold rrfStep
    dsimp only
    rw [fusionDocKey_eq_occKey]
    by_cases hmem : occKey o ∈ keysInOrder occs
    · -- the key is already recorded: in-place bump, no append
      have hhk : assocHasKey ((keysInOrder occs).map fun κ => (κ, specBucket k occs κ))
          (occKey o) = true := (assocHasKey_map _ _ _).mpr hmem
      rw [hhk, if_pos rfl, assocUpdate_map, hkeys, if_pos hmem]
      apply List.map_congr_left
      intro κ hκ
      by_cases hκo : κ = occKey o
      · rw [if_pos hκo, hκo, specBucket_append_self k occs o hmem]
      · rw [if_neg hκo, specBucket_append_other k occs o κ hκo]
    · -- fresh key: append a fresh bucket, then bump that last entry
      have hhk : assocHasKey ((keysInOrder occs).map fun κ => (κ, specBucket k occs κ))
          (occKey o) = false := by
        rw [Bool.eq_false_iff]
        intro hcon
        exact hmem ((assocHasKey_map _ _ _).mp hcon)
      rw [hhk, if_neg (by simp), hkeys, if_neg hmem]
      unfold assocUpdate
      simp only [List.map_append, List.map_map, List.map_cons, List.map_nil]
      congr 1
      · apply List.map_congr_left
        intro κ hκ
        have hκo : κ ≠ occKey o := fun hcon => hmem (hcon ▸ hκ)
        simp only [Function.comp]
        rw [if_neg (by simpa using hκo), specBucket_append_other k occs o κ hκo]
      · simp [specBucket_append_new k occs o hmem]

/-- Helper: the accumulator dict of `fuse_results` in spec form. -/
theorem rrfAll_eq_spec (k : ℚ) (lists : List (List DocumentScore)) :
    rrfAll k lists = (keysInOrder (fusionOccs lists)).map
      (fun κ => (κ, specBucket k (fusionOccs lists) κ)) := by
  rw [rrfAll_eq_foldl_occs]
  exact foldOccs_eq_spec k (fusionOccs lists)

/-- Helper: the source fusion equals the spec-side fusion. -/
theorem fuse_results_eq_fuseSpec (k : ℚ) (lists : List (List DocumentScore)) :
    fuse_results k lists = fuseSpec k lists := by
  unfold fuse_results fuseSpec bucketDocs
  dsimp only
  rw [rrfAll_eq_spec, List.map_map, List.map_map]
  rfl

/-- Helper: the rank-assignment pass does not change the score sequence. -/
theorem assignRanks_map_score (l : List DocumentScore) :
    (assignRanks l).map (fun d => d.score) = l.map (fun d => d.score) := by
  unfold assignRanks
  rw [List.map_map]
  have hfun : ((fun d : DocumentScore => d.score)
        ∘ fun p : Nat × DocumentScore => { p.2 with rank := p.1 })
      = (fun d : DocumentScore => d.score) ∘ Prod.snd := rfl
  rw [hfun, ← List.map_map, List.enum_map_snd]

/-- Helper: stability of the score sort — documents of any fixed score appear
in the sorted list exactly in their pre-sort (insertion) order. -/
theorem insertionSort_filter_score_eq (X : List DocumentScore) (s : ℚ) :
    (List.insertionSort scoreDesc X).filter (fun d => decide (d.score = s))
      = X.filter (fun d => decide (d.score = s)) := by
  have hpair : (X.filter (fun d => decide (d.score = s))).Pairwise scoreDesc := by
    apply List.pairwise_of_forall_mem_list
    intro a ha b hb
    have ha' : a.score = s := by simpa using (List.mem_filter.mp ha).2
    have hb' : b.score = s := by simpa using (List.mem_filter.mp hb).2
    unfold scoreDesc
    rw [ha', hb']
  have hsub : (X.filter (fun d => decide (d.score = s))).Sublist
      (List.insertionSort scoreDesc X) :=
    List.sublist_insertionSort hpair (List.filter_sublist X)
  have hself : (X.filter (fun d => decide (d.score = s))).filter
      (fun d => decide (d.score = s)) = X.filter (fun d => decide (d.score = s)) := by
    rw [List.filter_eq_self]
    intro a ha
    exact (List.mem_filter.mp ha).2
  have hsub2 : (X.filter (fun d => decide (d.score = s))).Sublist
      ((List.insertionSort scoreDesc X).filter (fun d => decide (d.score = s))) :=
    hself ▸ hsub.filter _
  have hperm : ((List.insertionSort scoreDesc X).filter
        (fun d => decide (d.score = s))).Perm (X.filter (fun d => decide (d.score = s))) :=
    (List.perm_insertionSort scoreDesc X).filter _
  exact (hsub2.eq_of_length hperm.length_eq.symm).symm

/-- C3: `fuse_results` implements the claimed reciprocal-rank-fusion
algorithm: fusing an empty list yields `[]`; the whole function equals the
spec-side `fuseSpec` (per-key accumulation of `1/(k+rank)` contributions under
the 100-character/synthetic dedup key, with appearance counts and source
queries, in dict insertion order); the accumulator equals the per-key
aggregation explicitly; the output scores are sorted descending; each output
document's `rank` is its 0-based sorted position; and the sort is stable
(documents of equal score keep their bucket insertion order).  The hypothesis
`0 < k` records that Python would raise `ZeroDivisionError` for `k = -rank`,
so only positive constants are meaningful. -/
theorem C3_fuse_results_algorithm (k : ℚ) (hk : 0 < k) :
    fuse_results k [] = []
  ∧ (∀ lists, fuse_results k lists = fuseSpec k lists)
  ∧ (∀ lists, rrfAll k lists = (keysInOrder (fusionOccs lists)).map
      (fun κ => (κ, specBucket k (fusionOccs lists) κ)))
  ∧ (∀ lists, ((fuse_results k lists).map fun d => d.score).Pairwise fun a b => b ≤ a)
  ∧ (∀ lists i (hi : i < (fuse_results k lists).length),
      ((fuse_results k lists).get ⟨i, hi⟩).rank = i)
  ∧ (∀ lists s, (sortByScoreDesc (bucketDocs k lists)).filter (fun d => decide (d.score = s))
      = (bucketDocs k lists).filter fun d => decide (d.score = s)) := by
  refine ⟨rfl, fun lists => fuse_results_eq_fuseSpec k lists, fun lists => rrfAll_eq_spec k lists,
    ?_, ?_, ?_⟩
  · intro lists
    unfold fuse_results
    rw [assignRanks_map_score]
    have hs : (sortByScoreDesc (bucketDocs k lists)).Pairwise scoreDesc :=
      List.sorted_insertionSort scoreDesc (bucketDocs k lists)
    exact List.pairwise_map.mpr hs
  · intro lists i hi
    simp [fuse_results, assignRanks, List.get_eq_getElem, List.getElem_map,
      List.getElem_enum] at hi ⊢
  · intro lists s
    exact insertionSort_filter_score_eq (bucketDocs k lists) s

/-- Witness for C3 at `k = 60`: the boundary case, via the theorem. -/
theorem C3_fuse_results_algorithm_witness :
    fuse_results 60 [] = [] ∧ (0 : ℚ) < 60 :=
  ⟨(C3_fuse_results_algorithm 60 (by norm_num)).1, by norm_num⟩

/-- Helper: rank reassignment does not change any key's fused score. -/
theorem keyScoreSum_assignRanks (l : List DocumentScore) (key : String) :
    keyScoreSum (assignRanks l) key = keyScoreSum l key := by
  unfold keyScoreSum assignRanks
  rw [List.map_map]
  have hfun : ((fun d : DocumentScore => if pyTake d.content 100 = key then d.score else 0)
        ∘ fun p : Nat × DocumentScore => { p.2 with rank := p.1 })
      = (fun d : DocumentScore => if pyTake d.content 100 = key then d.score else 0)
        ∘ Prod.snd := rfl
  rw [hfun, ← List.map_map, List.enum_map_snd]

/-- Helper: a key's fused score is invariant under permutation. -/
theorem keyScoreSum_perm {l₁ l₂ : List DocumentScore} (h : l₁.Perm l₂) (key : String) :
    keyScoreSum l₁ key = keyScoreSum l₂ key :=
  (h.map _).sum_eq

/-- Helper: indicator sums over a duplicate-free key list. -/
theorem sum_map_ite_eq (f : String → ℚ) :
    ∀ (ks : List String) (key : String), ks.Nodup →
      (ks.map fun κ => if κ = key then f κ else 0).sum = if key ∈ ks then f key else 0 := by
  intro ks
  induction ks with
  | nil => intro key _; simp
  | cons a t ih =>
    intro key hnd
    rcases List.nodup_cons.mp hnd with ⟨ha, ht⟩
    rw [List.map_cons, List.sum_cons, ih key ht]
    by_cases hak : a = key
    · subst hak
      rw [if_pos rfl, if_neg ha, if_pos (List.mem_cons_self a t)]
      simp
    · rw [if_neg hak]
      by_cases hkt : key ∈ t
      · rw [if_pos hkt, if_pos (List.mem_cons_of_mem a hkt)]
        simp
      · rw [if_neg hkt, if_neg (by
          simp only [List.mem_cons, hkt, or_false]
          exact fun h => hak h.symm)]
        simp

/-- Helper: indicator sums equal sums over the filtered occurrences. -/
theorem sum_map_ite_filter (l : List FusionOcc) (key : String) (f : FusionOcc → ℚ) :
    (l.map fun o => if occKey o = key then f o else 0).sum
      = ((l.filter fun o => decide (occKey o = key)).map f).sum := by
  induction l with
  | nil => simp
  | cons o t ih =>
    by_cases h : occKey o = key
    · simp [h, ih]
    · simp [h, ih]

/-- Helper: every occurrence's passage comes from one of the input lists. -/
theorem fusionOccs_doc_mem (lists : List (List DocumentScore)) :
    ∀ o ∈ fusionOccs lists, ∃ l ∈ lists, o.doc ∈ l := by
  intro o ho
  unfold fusionOccs at ho
  rcases List.mem_flatten.mp ho with ⟨inner, hinner, hoin⟩
  rcases List.mem_map.mp hinner with ⟨p, hp, rfl⟩
  rcases List.mem_map.mp hoin with ⟨q, hq, rfl⟩
  refine ⟨p.2, ?_, ?_⟩
  · have h1 := List.mem_map_of_mem Prod.snd hp
    rwa [List.enum_map_snd] at h1
  · have h2 := List.mem_map_of_mem Prod.snd hq
    rwa [List.enum_map_snd] at h2

/-- Helper: with non-empty contents, a recorded bucket's content carries its
own key. -/
theorem specBucket_key_content (k : ℚ) (occs : List FusionOcc) (κ : String)
    (hκ : κ ∈ keysInOrder occs) (hall : ∀ o ∈ occs, o.doc.content ≠ "") :
    (specBucket k occs κ).content ≠ "" ∧ pyTake (specBucket k occs κ).content 100 = κ := by
  rcases hm : occs.filter (fun o => decide (occKey o = κ)) with - | ⟨o₀, rest⟩
  · exact absurd hm (filter_occs_ne_nil occs κ hκ)
  · have ho₀ : o₀ ∈ occs.filter (fun o => decide (occKey o = κ)) := by
      rw [hm]; exact List.mem_cons_self o₀ rest
    have ho₀occs : o₀ ∈ occs := (List.mem_filter.mp ho₀).1
    have hko₀ : occKey o₀ = κ := by simpa using (List.mem_filter.mp ho₀).2
    have hcontent : (specBucket k occs κ).content = o₀.doc.content := by
      unfold specBucket
      rw [hm]
      rfl
    have hne := hall o₀ ho₀occs
    refine ⟨by rw [hcontent]; exact hne, ?_⟩
    rw [hcontent, ← hko₀]
    unfold occKey
    rw [if_neg hne]

/-- Helper: a key's fused score over the bucket documents is the total of its
occurrence contributions. -/
theorem keyScoreSum_bucketDocs (k : ℚ) (lists : List (List DocumentScore)) (key : String)
    (hc : ∀ l ∈ lists, ∀ d ∈ l, d.content ≠ "") :
    keyScoreSum (bucketDocs k lists) key = occContribSum k (fusionOccs lists) key := by
  have hall : ∀ o ∈ fusionOccs lists, o.doc.content ≠ "" := by
    intro o ho
    rcases fusionOccs_doc_mem lists o ho with ⟨l, hl, hd⟩
    exact hc l hl o.doc hd
  unfold keyScoreSum bucketDocs
  rw [rrfAll_eq_spec, List.map_map, List.map_map]
  have hpoint : ∀ κ ∈ keysInOrder (fusionOccs lists),
      (((fun d : DocumentScore => if pyTake d.content 100 = key then d.score else 0)
          ∘ (fun p : String × FusionBucket => bucketToDoc p.2))
        ∘ fun κ => (κ, specBucket k (fusionOccs lists) κ)) κ
      = if κ = key then (specBucket k (fusionOccs lists) κ).rrf_score else 0 := by
    intro κ hκ
    have h1 := specBucket_key_content k (fusionOccs lists) κ hκ hall
    simp only [Function.comp, bucketToDoc]
    rw [if_neg h1.1, h1.2]
  rw [List.map_congr_left hpoint,
    sum_map_ite_eq (fun κ => (specBucket k (fusionOccs lists) κ).rrf_score) _ key
      (keysInOrder_nodup _)]
  by_cases hmem : key ∈ keysInOrder (fusionOccs lists)
  · rw [if_pos hmem]
    unfold specBucket occContribSum
    dsimp only
    rw [sum_map_ite_filter]
  · rw [if_neg hmem]
    unfold occContribSum
    rw [sum_map_ite_filter, filter_occs_nil _ key hmem]
    simp

/-- Helper: with non-empty contents the occurrence contributions split as a
sum of per-list contributions. -/
theorem occContribSum_eq_perLists (k : ℚ) (lists : List (List DocumentScore)) (key : String)
    (hc : ∀ l ∈ lists, ∀ d ∈ l, d.content ≠ "") :
    occContribSum k (fusionOccs lists) key = (lists.map fun l => perListSum k l key).sum := by
  unfold occContribSum fusionOccs
  rw [List.map_flatten, List.sum_flatten, List.map_map, List.map_map]
  have hpoint : ∀ p ∈ lists.enum,
      ((List.sum ∘ List.map fun o => if occKey o = key then 1 / (k + (o.rnk : ℚ)) else 0)
          ∘ fun p : Nat × List DocumentScore =>
            p.2.enum.map fun q => FusionOcc.mk p.1 q.1 q.2) p
      = ((fun l => perListSum k l key) ∘ Prod.snd) p := by
    intro p hp
    have hpl : p.2 ∈ lists := by
      have h1 := List.mem_map_of_mem Prod.snd hp
      rwa [List.enum_map_snd] at h1
    simp only [Function.comp, List.map_map]
    unfold perListSum
    congr 1
    apply List.map_congr_left
    intro q hq
    have hd : q.2 ∈ p.2 := by
      have h2 := List.mem_map_of_mem Prod.snd hq
      rwa [List.enum_map_snd] at h2
    have hne := hc p.2 hpl q.2 hd
    simp only [Function.comp]
    unfold occKey
    rw [if_neg hne]
  rw [List.map_congr_left hpoint, ← List.map_map, List.enum_map_snd]

/-- Helper: a key's fused output score is the sum of the per-list
contributions, independent of list order. -/
theorem keyScoreSum_fuse (k : ℚ) (lists : List (List DocumentScore)) (key : String)
    (hc : ∀ l ∈ lists, ∀ d ∈ l, d.content ≠ "") :
    keyScoreSum (fuse_results k lists) key = (lists.map fun l => perListSum k l key).sum := by
  unfold fuse_results sortByScoreDesc
  rw [keyScoreSum_assignRanks,
    keyScoreSum_perm (List.perm_insertionSort scoreDesc (bucketDocs k lists)) key,
    keyScoreSum_bucketDocs k lists key hc, occContribSum_eq_perLists k lists key hc]

/-- C4: rank fusion is commutative in list order with respect to scores — for
ranked lists with non-empty contents and any permutation of the collection,
every dedup key's accumulated fused score is identical under both orderings.
The hypothesis `0 < k` records the meaningful domain of the RRF constant. -/
theorem C4_rrf_commutative_in_list_order (k : ℚ) (hk : 0 < k)
    (ls₁ ls₂ : List (List DocumentScore)) (hperm : ls₁.Perm ls₂)
    (hc : ∀ l ∈ ls₁, ∀ d ∈ l, d.content ≠ "") (key : String) :
    keyScoreSum (fuse_results k ls₁) key = keyScoreSum (fuse_results k ls₂) key := by
  have hc₂ : ∀ l ∈ ls₂, ∀ d ∈ l, d.content ≠ "" := fun l hl => hc l (hperm.mem_iff.mpr hl)
  rw [keyScoreSum_fuse k ls₁ key hc, keyScoreSum_fuse k ls₂ key hc₂]
  exact (hperm.map fun l => perListSum k l key).sum_eq

/-- Witness for C4: swapping two singleton result lists leaves the fused
score of the key "alpha" unchanged. -/
theorem C4_rrf_commutative_in_list_order_witness :
    keyScoreSum (fuse_results 60 [[sampleDocA], [sampleDocB]]) "alpha"
      = keyScoreSum (fuse_results 60 [[sampleDocB], [sampleDocA]]) "alpha" :=
  C4_rrf_commutative_in_list_order 60 (by norm_num) _ _
    (List.Perm.swap [sampleDocB] [sampleDocA] []) (by decide) "alpha"
